import Mathlib

/-!
Verification of the persistent-store layer of the market-research dashboard
(src/app.py): the analysis cache (market_cache), the document dedup store
(pdf_history), the interaction log (pdf_qa), the search history (ma_searches)
and the telemetry log (usage_analytics), together with the maintenance and
bulk-delete operations.  SQLite tables are modelled as Lean lists of rows,
SQL timestamps as natural numbers (hours), and each Python method of
WorkingMarketDB as a pure function from table state to table state.
-/

namespace MarketApp

/-- A row of the market_cache table (init_database, src/app.py lines 38-47).
The rowid column is irrelevant to every property below and is omitted;
query_hash carries a UNIQUE constraint realised by insertOrReplaceCache. -/
structure CacheRow where
  market_name : String
  query_type : String
  query_hash : String
  result_data : String
  created_at : Nat
  expires_at : Option Nat
  source : String
deriving DecidableEq

/-- A Python value handed to cache_result as result_data : Any.  The call sites
pass the strings returned by the text-producing services; the model keeps one
non-string shape (int) to express what str() does to non-string payloads. -/
inductive PyVal where
  | pystr (s : String)
  | pyint (n : Int)
deriving DecidableEq

/-- Python str() on a modelled value: a str renders as itself, an int as its
decimal digits (matching Lean's toString on Int). -/
def pyToString : PyVal → String
  | .pystr s => s
  | .pyint n => toString n

/-- The keyword arguments **kwargs of the cache methods, as a string-keyed,
string-valued association list. -/
abbrev Params := List (String × String)

/-- Insert one pair into a key-sorted list, keeping the sort. -/
def insertByKey (p : String × String) : List (String × String) → List (String × String)
  | [] => [p]
  | q :: rest => if p.1 ≤ q.1 then p :: q :: rest else q :: insertByKey p rest

/-- Sort an association list by key (insertion sort). -/
def sortByKey (l : List (String × String)) : List (String × String) :=
  l.foldr insertByKey []

/-- json.dumps(kwargs, sort_keys=True) for a string-valued mapping: keys are
put in sorted order, then rendered with json's default separators. -/
def json_dumps_sorted (kwargs : Params) : String :=
  "\x7b" ++ String.intercalate ", "
    ((sortByKey kwargs).map (fun p => "\"" ++ p.1 ++ "\": \"" ++ p.2 ++ "\"")) ++ "\x7d"

/-- hashlib.md5(s.encode()).hexdigest() is an external digest primitive.  Every
property below uses the digest only as a deterministic function of its input
(the same arguments give the same fingerprint), never a property of MD5
itself, so the digest is modelled as the encoded text. -/
def md5_hexdigest (s : String) : String := s

/-- WorkingMarketDB.generate_query_hash (src/app.py lines 96-99). -/
def generate_query_hash (market_name query_type : String) (kwargs : Params) : String :=
  md5_hexdigest (market_name ++ ":" ++ query_type ++ ":" ++ json_dumps_sorted kwargs)

/-- INSERT OR REPLACE into market_cache: the UNIQUE constraint on query_hash
makes SQLite delete any existing row with the same hash and insert the fresh
row. -/
def insertOrReplaceCache (tbl : List CacheRow) (r : CacheRow) : List CacheRow :=
  (tbl.filter (fun x => x.query_hash != r.query_hash)) ++ [r]

/-- WorkingMarketDB.cache_result (src/app.py lines 123-134): computes the
fingerprint and upserts a row whose result_data is str(result_data) and whose
expires_at is datetime(now, +expire_hours hours); time is modelled in hours. -/
def cache_result (tbl : List CacheRow) (now : Nat) (market_name query_type : String)
    (result_data : PyVal) (source : String) (expire_hours : Nat) (kwargs : Params) :
    List CacheRow :=
  let query_hash := generate_query_hash market_name query_type kwargs
  insertOrReplaceCache tbl
    { market_name := market_name, query_type := query_type, query_hash := query_hash,
      result_data := pyToString result_data, created_at := now,
      expires_at := some (now + expire_hours), source := source }

/-- cache_result called without the expire_hours argument: Python fills in the
declared default expire_hours = 24. -/
def cache_result_default (tbl : List CacheRow) (now : Nat) (market_name query_type : String)
    (result_data : PyVal) (source : String) (kwargs : Params) : List CacheRow :=
  cache_result tbl now market_name query_type result_data source 24 kwargs

/-- The dictionary get_cached_result builds from the selected row. -/
structure CachedResult where
  data : String
  cached_at : Nat
  expires_at : Option Nat
deriving DecidableEq

/-- The read filter of get_cached_result: expires_at IS NULL OR
expires_at > datetime(now). -/
def notExpired (now : Nat) (r : CacheRow) : Bool :=
  match r.expires_at with
  | none => true
  | some e => decide (now < e)

/-- WorkingMarketDB.get_cached_result (src/app.py lines 102-121): a pure read,
the body runs a single SELECT and writes nothing. -/
def get_cached_result (tbl : List CacheRow) (now : Nat) (market_name query_type : String)
    (kwargs : Params) : Option CachedResult :=
  let query_hash := generate_query_hash market_name query_type kwargs
  match tbl.find? (fun r => r.query_hash == query_hash && notExpired now r) with
  | some r => some { data := r.result_data, cached_at := r.created_at,
                     expires_at := r.expires_at }
  | none => none

/-- WorkingMarketDB.cleanup_expired_cache (src/app.py lines 310-313):
DELETE FROM market_cache WHERE expires_at < datetime(now).  A NULL expires_at
never satisfies the SQL comparison, so such rows are kept. -/
def cleanup_expired_cache (tbl : List CacheRow) (now : Nat) : List CacheRow :=
  tbl.filter (fun r =>
    !(match r.expires_at with
      | none => false
      | some e => decide (e < now)))

/-- One cache_result call, for reasoning about arbitrary sequences of puts. -/
structure PutCall where
  now : Nat
  market_name : String
  query_type : String
  result_data : PyVal
  source : String
  expire_hours : Nat
  kwargs : Params

/-- Run a sequence of cache_result calls left to right. -/
def runPuts (tbl : List CacheRow) (ops : List PutCall) : List CacheRow :=
  ops.foldl (fun t op =>
    cache_result t op.now op.market_name op.query_type op.result_data op.source
      op.expire_hours op.kwargs) tbl

/-- A row of the pdf_history table (init_database, src/app.py lines 49-59).
openai_file_ids is stored as json.dumps of a list of strings and read back
with json.loads; the model keeps the decoded list. -/
structure PdfHistoryRow where
  id : Nat
  file_name : String
  file_hash : String
  file_size : Nat
  total_pages : Nat
  chunks_count : Nat
  openai_file_ids : List String
  processed_at : Nat
  status : String
deriving DecidableEq

/-- hashlib.md5(file_content).hexdigest() on raw bytes, modelled like
md5_hexdigest: every property uses it only as a deterministic function of the
bytes. -/
def md5_bytes (content : List Nat) : String := toString content

/-- id INTEGER PRIMARY KEY AUTOINCREMENT: the next rowid is one past the
largest id in the table. -/
def nextPdfId (tbl : List PdfHistoryRow) : Nat :=
  (tbl.map (fun r => r.id)).foldl max 0 + 1

/-- WorkingMarketDB.save_pdf_processing (src/app.py lines 137-150): inserts a
row with the content hash, size, page and chunk counts, status defaulting to
"processed", and returns the fresh rowid. -/
def save_pdf_processing (tbl : List PdfHistoryRow) (now : Nat) (file_name : String)
    (file_content : List Nat) (total_pages : Nat) (openai_file_ids : List String) :
    List PdfHistoryRow × Nat :=
  let file_hash := md5_bytes file_content
  let id := nextPdfId tbl
  (tbl ++ [{ id := id, file_name := file_name, file_hash := file_hash,
             file_size := file_content.length, total_pages := total_pages,
             chunks_count := openai_file_ids.length, openai_file_ids := openai_file_ids,
             processed_at := now, status := "processed" }], id)

/-- ORDER BY processed_at DESC LIMIT 1 over a row list: a row with the largest
processed_at (SQLite leaves the relative order of equal timestamps
unspecified; the model keeps the first such row). -/
def latestProcessed : List PdfHistoryRow → Option PdfHistoryRow
  | [] => none
  | r :: rest =>
    match latestProcessed rest with
    | none => some r
    | some b => if r.processed_at < b.processed_at then some b else some r

/-- WorkingMarketDB.get_pdf_by_hash (src/app.py lines 152-171): the most
recently processed row whose file_hash matches and whose status is
"processed", or none. -/
def get_pdf_by_hash (tbl : List PdfHistoryRow) (file_hash : String) :
    Option PdfHistoryRow :=
  latestProcessed
    (tbl.filter (fun r => r.file_hash == file_hash && r.status == "processed"))

/-- One entry of the file_chunks lists built at src/app.py lines 422-429 and
536-543: a Python dict with keys file_id, start and end (end is a reserved
word in Lean, hence end_page). -/
structure Chunk where
  file_id : String
  start : Nat
  end_page : Nat
deriving DecidableEq

/-- The chunk-range reconstruction loop shared by
process_pdf_with_deduplication (src/app.py lines 417-429) and
restore_pdf_session_complete (src/app.py lines 531-543):
pages_per_chunk = total_pages // chunks_count (integer division), and chunk i
spans pages i * pages_per_chunk + 1 through
min((i + 1) * pages_per_chunk, total_pages). -/
def reconstruct_chunk_ranges (openai_file_ids : List String)
    (total_pages chunks_count : Nat) : List Chunk :=
  let pages_per_chunk := total_pages / chunks_count
  openai_file_ids.enum.map (fun p =>
    { file_id := p.2, start := p.1 * pages_per_chunk + 1,
      end_page := min ((p.1 + 1) * pages_per_chunk) total_pages })

/-- Page p lies within chunk c's reconstructed range. -/
def inChunkPages (c : Chunk) (p : Nat) : Prop := c.start ≤ p ∧ p ≤ c.end_page

/-- C8's property of the reconstruction over N = ids.length chunk handles and
P pages: there are N ranges; chunk i runs from i * (P / N) + 1 to
min((i + 1) * (P / N), P), where the min resolves to (i + 1) * (P / N);
consecutive ranges are contiguous; and the ranges cover exactly pages 1..P
with no page in two distinct chunks. -/
def ChunkRangesSpec (ids : List String) (P : Nat) : Prop :=
  (reconstruct_chunk_ranges ids P ids.length).length = ids.length
  ∧ (∀ i, i < ids.length → ∃ fid, ids[i]? = some fid ∧
      (reconstruct_chunk_ranges ids P ids.length)[i]?
        = some ⟨fid, i * (P / ids.length) + 1, (i + 1) * (P / ids.length)⟩
      ∧ min ((i + 1) * (P / ids.length)) P = (i + 1) * (P / ids.length))
  ∧ (∀ (i : Nat) (c c2 : Chunk),
      (reconstruct_chunk_ranges ids P ids.length)[i]? = some c →
      (reconstruct_chunk_ranges ids P ids.length)[i + 1]? = some c2 →
      c.end_page + 1 = c2.start)
  ∧ (∀ p, (1 ≤ p ∧ p ≤ P) ↔ ∃ (i : Nat) (c : Chunk),
      (reconstruct_chunk_ranges ids P ids.length)[i]? = some c ∧ inChunkPages c p)
  ∧ (∀ (i j : Nat) (c c2 : Chunk) (p : Nat),
      (reconstruct_chunk_ranges ids P ids.length)[i]? = some c →
      (reconstruct_chunk_ranges ids P ids.length)[j]? = some c2 →
      inChunkPages c p → inChunkPages c2 p → i = j)

/-- process_pdf_with_deduplication (src/app.py lines 406-461), restricted to
the store: the external chunker split_and_upload_pdf_chunks is an input
(fresh_chunks, consulted only on the miss branch), Streamlit UI calls are
outside the store.  On a hit the table is unchanged and the chunk list is
reconstructed from the existing row; on a miss total_pages is the largest
chunk end (Python max over a nonempty list) and a fresh row is saved.
Returns (pdf_history table, current_pdf_id, file_chunks). -/
def process_pdf_with_deduplication (tbl : List PdfHistoryRow) (now : Nat)
    (file_name : String) (file_content : List Nat) (fresh_chunks : List Chunk) :
    List PdfHistoryRow × Nat × List Chunk :=
  let file_hash := md5_bytes file_content
  match get_pdf_by_hash tbl file_hash with
  | some existing =>
      (tbl, existing.id,
        reconstruct_chunk_ranges existing.openai_file_ids existing.total_pages
          existing.chunks_count)
  | none =>
      let openai_file_ids := fresh_chunks.map (fun c => c.file_id)
      let total_pages := (fresh_chunks.map (fun c => c.end_page)).foldl max 0
      let out := save_pdf_processing tbl now file_name file_content total_pages
        openai_file_ids
      (out.1, out.2, fresh_chunks)

/-- A row of the pdf_qa table (init_database, src/app.py lines 61-71).  Token
counts and cost are Python floats at the call sites; floats are modelled as
exact rationals. -/
structure PdfQaRow where
  id : Nat
  pdf_history_id : Nat
  question : String
  answer : String
  query_tokens : ℚ
  response_tokens : ℚ
  cost_estimate : ℚ
  created_at : Nat
deriving DecidableEq

/-- A row of the ma_searches table (init_database, src/app.py lines 73-80). -/
structure MaSearchRow where
  id : Nat
  market_name : String
  timeframe : String
  result_data : String
  deals_count : Nat
  created_at : Nat
deriving DecidableEq

/-- A row of the usage_analytics table (init_database, src/app.py
lines 82-89). -/
structure UsageAnalyticsRow where
  id : Nat
  event_type : String
  event_data : Option String
  user_agent : Option String
  session_id : Option String
  created_at : Nat
deriving DecidableEq

/-- The five tables of working_market.db (init_database, src/app.py
lines 34-94). -/
structure DBState where
  market_cache : List CacheRow
  pdf_history : List PdfHistoryRow
  pdf_qa : List PdfQaRow
  ma_searches : List MaSearchRow
  usage_analytics : List UsageAnalyticsRow
deriving DecidableEq

/-- The freshly initialised database: five empty tables. -/
def emptyDB : DBState := ⟨[], [], [], [], []⟩

/-- The next pdf_qa rowid. -/
def nextQaId (tbl : List PdfQaRow) : Nat :=
  (tbl.map (fun r => r.id)).foldl max 0 + 1

/-- WorkingMarketDB.save_pdf_qa (src/app.py lines 173-185): computes
cost_estimate = (query_tokens * 0.01 + response_tokens * 0.03) / 1000 and
inserts the row, returning its rowid.  The sqlite3 connection never turns on
PRAGMA foreign_keys, so the FOREIGN KEY declared on pdf_history_id is not
enforced: the INSERT succeeds for any pdf_history_id, referenced or not. -/
def save_pdf_qa (db : DBState) (now : Nat) (pdf_history_id : Nat)
    (question answer : String) (query_tokens response_tokens : ℚ) : DBState × Nat :=
  let cost_estimate := (query_tokens * (1 / 100) + response_tokens * (3 / 100)) / 1000
  let id := nextQaId db.pdf_qa
  ({ db with
      pdf_qa := db.pdf_qa ++
        [{ id := id, pdf_history_id := pdf_history_id, question := question,
           answer := answer, query_tokens := query_tokens,
           response_tokens := response_tokens, cost_estimate := cost_estimate,
           created_at := now }] }, id)

/-- The record get_pdf_qa_history builds per selected row. -/
structure QaHistoryEntry where
  question : String
  answer : String
  created_at : Nat
  cost_estimate : ℚ
deriving DecidableEq

/-- Insert one row into a list sorted by created_at descending. -/
def insertByCreatedDesc (r : PdfQaRow) : List PdfQaRow → List PdfQaRow
  | [] => [r]
  | q :: rest =>
    if r.created_at ≤ q.created_at then q :: insertByCreatedDesc r rest
    else r :: q :: rest

/-- ORDER BY created_at DESC over pdf_qa rows (insertion sort; SQLite leaves
the relative order of equal timestamps unspecified). -/
def sortByCreatedDesc (l : List PdfQaRow) : List PdfQaRow :=
  l.foldr insertByCreatedDesc []

/-- WorkingMarketDB.get_pdf_qa_history (src/app.py lines 187-198): SELECT
question, answer, created_at, cost_estimate WHERE pdf_history_id = ?
ORDER BY created_at DESC. -/
def get_pdf_qa_history (db : DBState) (pdf_history_id : Nat) : List QaHistoryEntry :=
  (sortByCreatedDesc (db.pdf_qa.filter (fun r => r.pdf_history_id == pdf_history_id))).map
    (fun r => { question := r.question, answer := r.answer,
                created_at := r.created_at, cost_estimate := r.cost_estimate })

/-- The per-table counts WorkingMarketDB.get_database_stats returns
(src/app.py lines 315-325); db_size_mb reads the filesystem and lies outside
the store model. -/
structure DBStats where
  market_cache_count : Nat
  pdf_history_count : Nat
  pdf_qa_count : Nat
  ma_searches_count : Nat
  usage_analytics_count : Nat
deriving DecidableEq

/-- WorkingMarketDB.get_database_stats (src/app.py lines 315-325): SELECT
COUNT(*) over each of the five tables. -/
def get_database_stats (db : DBState) : DBStats :=
  { market_cache_count := db.market_cache.length,
    pdf_history_count := db.pdf_history.length,
    pdf_qa_count := db.pdf_qa.length,
    ma_searches_count := db.ma_searches.length,
    usage_analytics_count := db.usage_analytics.length }

/-- The tab5 bulk-delete Everything branch (src/app.py lines 1245-1251): its
executescript deletes market_cache, pdf_qa, pdf_history and ma_searches;
usage_analytics is not in the script and is left as it was. -/
def bulk_delete_everything (db : DBState) : DBState :=
  { db with market_cache := [], pdf_qa := [], pdf_history := [], ma_searches := [] }

/-- What get_pdf_by_hash returns, read off its SELECT: none exactly when no
row matches hash and status, and a returned row is a matching row of maximal
processed_at. -/
def GetPdfByHashSpec : Prop :=
  (∀ (t : List PdfHistoryRow) (h : String),
    get_pdf_by_hash t h = none ↔ ∀ r ∈ t, ¬(r.file_hash = h ∧ r.status = "processed"))
  ∧ (∀ (t : List PdfHistoryRow) (h : String) (r : PdfHistoryRow),
      get_pdf_by_hash t h = some r →
        r ∈ t ∧ r.file_hash = h ∧ r.status = "processed"
        ∧ ∀ r2 ∈ t, r2.file_hash = h → r2.status = "processed" →
            r2.processed_at ≤ r.processed_at)

/-- The dedup consequence for C7, over the outputs of two ingestions of the
same content: the first ingestion creates a processed record whose chunk count
and page count come from its chunk list; the second ingestion leaves the
table unchanged, resolves to that record's id, and rebuilds its chunk list
from that record's stored fields. -/
def FindByContentSpec (tbl : List PdfHistoryRow) (now1 now2 : Nat)
    (name1 name2 : String) (content : List Nat)
    (chunks1 chunks2 : List Chunk) : Prop :=
  ∃ r1,
    r1 ∈ (process_pdf_with_deduplication tbl now1 name1 content chunks1).1
    ∧ r1.id = (process_pdf_with_deduplication tbl now1 name1 content chunks1).2.1
    ∧ r1.file_hash = md5_bytes content
    ∧ r1.status = "processed"
    ∧ r1.chunks_count = chunks1.length
    ∧ r1.total_pages = (chunks1.map (fun c => c.end_page)).foldl max 0
    ∧ process_pdf_with_deduplication
        (process_pdf_with_deduplication tbl now1 name1 content chunks1).1
        now2 name2 content chunks2
      = ((process_pdf_with_deduplication tbl now1 name1 content chunks1).1, r1.id,
         reconstruct_chunk_ranges r1.openai_file_ids r1.total_pages r1.chunks_count)

/-- One concrete telemetry row, as log_event would write it. -/
def usageRowExample : UsageAnalyticsRow := ⟨1, "market_analysis", none, none, none, 0⟩

/-- A database holding a single usage_analytics row and nothing else. -/
def dbWithUsage : DBState := { emptyDB with usage_analytics := [usageRowExample] }

end MarketApp

namespace MarketApp

/-- Rows of insertOrReplaceCache tbl r0 carrying r0's hash are exactly [r0]. -/
theorem filter_insertOrReplace (tbl : List CacheRow) (r0 : CacheRow) (h : String)
    (hh : r0.query_hash = h) :
    (insertOrReplaceCache tbl r0).filter (fun r => r.query_hash == h) = [r0] := by
  unfold insertOrReplaceCache
  rw [List.filter_append]
  have h1 : (tbl.filter (fun x => x.query_hash != r0.query_hash)).filter
      (fun r => r.query_hash == h) = [] := by
    rw [List.filter_filter, List.filter_eq_nil_iff]
    intro a _
    subst hh
    by_cases hq : a.query_hash = r0.query_hash
    · simp [hq]
    · simp [hq]
  rw [h1]
  simp [hh]

/-- find? over insertOrReplaceCache tbl r0, with a predicate demanding r0's
hash, reduces to testing r0 alone. -/
theorem find?_insertOrReplace (tbl : List CacheRow) (r0 : CacheRow) (h : String)
    (q : CacheRow → Bool) (hh : r0.query_hash = h) :
    (insertOrReplaceCache tbl r0).find? (fun r => r.query_hash == h && q r)
      = if q r0 then some r0 else none := by
  unfold insertOrReplaceCache
  rw [List.find?_append]
  have h1 : (tbl.filter (fun x => x.query_hash != r0.query_hash)).find?
      (fun r => r.query_hash == h && q r) = none := by
    rw [List.find?_eq_none]
    intro a ha
    have := List.of_mem_filter ha
    subst hh
    simp only [bne_iff_ne, ne_eq] at this
    simp [this]
  rw [h1]
  by_cases hq : q r0
  · simp [hq, hh]
  · simp [hq, hh]

/-- A read of the key just written sees the fresh row alone: it is returned
exactly while the read time lies before its expiry. -/
theorem get_after_put (tbl : List CacheRow) (now t ttl : Nat) (mn qt : String)
    (kwargs : Params) (payload : PyVal) (src : String) :
    get_cached_result (cache_result tbl now mn qt payload src ttl kwargs) t mn qt kwargs
      = if t < now + ttl then
          some { data := pyToString payload, cached_at := now,
                 expires_at := some (now + ttl) }
        else none := by
  simp only [get_cached_result, cache_result]
  rw [find?_insertOrReplace tbl _ (generate_query_hash mn qt kwargs) (notExpired t) rfl]
  by_cases h : t < now + ttl
  · simp [notExpired, h]
  · simp [notExpired, h]

/-- C1: for every subject, query kind, parameter mapping, string payload,
source and positive ttl, cache_result followed immediately by
get_cached_result with the same subject, kind and parameters returns the same
payload (found = true, i.e. a some result holding it). -/
theorem cache_put_get_roundtrip
    (tbl : List CacheRow) (now : Nat) (market_name query_type : String)
    (kwargs : Params) (payload source : String) (ttl : Nat) (httl : 0 < ttl) :
    get_cached_result
      (cache_result tbl now market_name query_type (PyVal.pystr payload) source ttl kwargs)
      now market_name query_type kwargs
      = some { data := payload, cached_at := now, expires_at := some (now + ttl) } := by
  rw [get_after_put, if_pos (by omega)]
  rfl

/-- C1 at a concrete input: the example put then get of the spec. -/
theorem cache_put_get_roundtrip_witness :
    get_cached_result
      (cache_result [] 0 "EV Batteries" "global" (PyVal.pystr "overview text") "openai" 24 [])
      0 "EV Batteries" "global" []
      = some { data := "overview text", cached_at := 0, expires_at := some 24 } :=
  cache_put_get_roundtrip [] 0 "EV Batteries" "global" [] "overview text" "openai" 24
    (by decide)

/-- One upsert keeps the per-hash row count at most one. -/
theorem countP_insertOrReplace_le_one (tbl : List CacheRow) (r0 : CacheRow) (h : String)
    (hinv : tbl.countP (fun r => r.query_hash == h) ≤ 1) :
    (insertOrReplaceCache tbl r0).countP (fun r => r.query_hash == h) ≤ 1 := by
  unfold insertOrReplaceCache
  rw [List.countP_append]
  by_cases hq : r0.query_hash = h
  · have h0 : (tbl.filter (fun x => x.query_hash != r0.query_hash)).countP
        (fun r => r.query_hash == h) = 0 := by
      rw [List.countP_eq_zero]
      intro a ha
      have hne := List.of_mem_filter ha
      simp only [bne_iff_ne, ne_eq] at hne
      simp [hq ▸ hne]
    rw [h0]
    simp [hq, List.countP_cons]
  · have h1 : ([r0].countP (fun r => r.query_hash == h)) = 0 := by
      simp [List.countP_cons, hq]
    rw [h1]
    have hsub := (List.filter_sublist (l := tbl)
      (p := fun x => x.query_hash != r0.query_hash)).countP_le
      (fun r => r.query_hash == h)
    omega

/-- The per-hash row count stays at most one across any sequence of puts. -/
theorem runPuts_countP_le_one (ops : List PutCall) (tbl : List CacheRow)
    (hinv : ∀ h, tbl.countP (fun r => r.query_hash == h) ≤ 1) (h : String) :
    (runPuts tbl ops).countP (fun r => r.query_hash == h) ≤ 1 := by
  induction ops generalizing tbl with
  | nil => exact hinv h
  | cons op ops ih =>
    simp only [runPuts, List.foldl_cons]
    exact ih _ (fun h2 => countP_insertOrReplace_le_one _ _ _ (hinv h2))

/-- C2: after any sequence of cache_result calls starting from the empty table
there is at most one market_cache row per fingerprint; and after two puts with
the same subject, kind and parameters (from any starting table) the rows
carrying that fingerprint are exactly one row holding the later call's
payload. -/
theorem cache_fingerprint_unique
    (ops : List PutCall) (h : String)
    (tbl : List CacheRow) (now1 now2 : Nat) (mn qt : String) (kwargs : Params)
    (p1 p2 : PyVal) (src1 src2 : String) (t1 t2 : Nat) :
    (runPuts [] ops).countP (fun r => r.query_hash == h) ≤ 1
    ∧ ((cache_result (cache_result tbl now1 mn qt p1 src1 t1 kwargs) now2 mn qt p2 src2 t2
        kwargs).filter (fun r => r.query_hash == generate_query_hash mn qt kwargs))
      = [{ market_name := mn, query_type := qt,
           query_hash := generate_query_hash mn qt kwargs,
           result_data := pyToString p2, created_at := now2,
           expires_at := some (now2 + t2), source := src2 }] := by
  constructor
  · exact runPuts_countP_le_one ops [] (fun _ => by simp) h
  · exact filter_insertOrReplace _ _ _ rfl

/-- C3: an entry written with ttl = 0 has already expired: at any later time a
read returns none, yet the row itself is still present in the table (the read
is a single SELECT, modelled as a pure function of the table), and
cleanup_expired_cache deletes exactly the rows whose expires_at lies strictly
in the past. -/
theorem cache_expired_read_and_sweep
    (tbl : List CacheRow) (now now2 : Nat) (mn qt : String) (kwargs : Params)
    (payload : PyVal) (src : String) (hle : now ≤ now2) :
    (get_cached_result (cache_result tbl now mn qt payload src 0 kwargs) now2 mn qt kwargs
      = none)
    ∧ (∃ r ∈ cache_result tbl now mn qt payload src 0 kwargs,
        r.query_hash = generate_query_hash mn qt kwargs
        ∧ r.result_data = pyToString payload ∧ r.expires_at = some now)
    ∧ (∀ (d : List CacheRow) (t : Nat) (r : CacheRow),
        r ∈ cleanup_expired_cache d t ↔
          r ∈ d ∧ ∀ e, r.expires_at = some e → ¬ e < t) := by
  refine ⟨?_, ?_, ?_⟩
  · rw [get_after_put, if_neg (by omega)]
  · refine ⟨⟨mn, qt, generate_query_hash mn qt kwargs, pyToString payload, now,
      some (now + 0), src⟩, ?_, rfl, rfl, rfl⟩
    simp [cache_result, insertOrReplaceCache]
  · intro d t r
    simp only [cleanup_expired_cache, List.mem_filter]
    constructor
    · rintro ⟨hmem, hp⟩
      refine ⟨hmem, fun e he => ?_⟩
      rw [he] at hp
      simpa using hp
    · rintro ⟨hmem, hp⟩
      refine ⟨hmem, ?_⟩
      cases hre : r.expires_at with
      | none => simp
      | some e => simpa using hp e hre

/-- C3 at a concrete input: a ttl = 0 write at time 5 read back at time 7. -/
theorem cache_expired_read_and_sweep_witness :
    (get_cached_result (cache_result [] 5 "m" "global" (PyVal.pystr "x") "openai" 0 [])
      7 "m" "global" [] = none)
    ∧ (∃ r ∈ cache_result [] 5 "m" "global" (PyVal.pystr "x") "openai" 0 [],
        r.query_hash = generate_query_hash "m" "global" []
        ∧ r.result_data = pyToString (PyVal.pystr "x") ∧ r.expires_at = some 5)
    ∧ (∀ (d : List CacheRow) (t : Nat) (r : CacheRow),
        r ∈ cleanup_expired_cache d t ↔
          r ∈ d ∧ ∀ e, r.expires_at = some e → ¬ e < t) :=
  cache_expired_read_and_sweep [] 5 7 "m" "global" [] (PyVal.pystr "x") "openai"
    (by decide)

/-- C4 counterexample: cache_result called with the ttl argument absent writes
expires_at = now + 24 via the declared default expire_hours = 24, never NULL:
on the empty table at time 0 the one row written has expires_at = some 24. -/
theorem cache_default_ttl_counterexample :
    ((cache_result_default [] 0 "m" "global" (PyVal.pystr "x") "openai" []).map
      (fun r => r.expires_at)) = [some 24]
    ∧ some (24 : Nat) ≠ (none : Option Nat) := ⟨rfl, by decide⟩

/-- C4 amended: calling cache_result with expire_hours absent uses the declared
default of 24 hours: the upserted row has expires_at = now + 24 (not NULL), a
read strictly before now + 24 returns the payload, and from now + 24 on the
entry is no longer returned. -/
theorem cache_default_ttl
    (tbl : List CacheRow) (now t : Nat) (mn qt : String) (kwargs : Params)
    (payload : PyVal) (src : String) :
    ((cache_result_default tbl now mn qt payload src kwargs).filter
        (fun r => r.query_hash == generate_query_hash mn qt kwargs)
      = [{ market_name := mn, query_type := qt,
           query_hash := generate_query_hash mn qt kwargs,
           result_data := pyToString payload, created_at := now,
           expires_at := some (now + 24), source := src }])
    ∧ (t < now + 24 →
        get_cached_result (cache_result_default tbl now mn qt payload src kwargs)
          t mn qt kwargs
          = some { data := pyToString payload, cached_at := now,
                   expires_at := some (now + 24) })
    ∧ (now + 24 ≤ t →
        get_cached_result (cache_result_default tbl now mn qt payload src kwargs)
          t mn qt kwargs = none) := by
  refine ⟨filter_insertOrReplace _ _ _ rfl, ?_, ?_⟩
  · intro ht
    rw [cache_result_default, get_after_put, if_pos (by omega)]
  · intro ht
    rw [cache_result_default, get_after_put, if_neg (by omega)]

/-- C5 evidence: save_pdf_qa against an empty pdf_history table does not fail
with NotFound — it inserts the orphan row (here pdf_history_id = 999 with no
parent) and returns its rowid 1, because the sqlite3 connection never enables
enforcement of the declared FOREIGN KEY. -/
theorem save_pdf_qa_orphan_insert :
    ((save_pdf_qa emptyDB 0 999 "q" "a" 5 3).1.pdf_qa.map (fun r => r.pdf_history_id)
      = [999])
    ∧ (save_pdf_qa emptyDB 0 999 "q" "a" 5 3).1.pdf_history = []
    ∧ (save_pdf_qa emptyDB 0 999 "q" "a" 5 3).2 = 1 := ⟨rfl, rfl, rfl⟩

/-- Membership in the descending insertion is membership in the parts. -/
theorem mem_insertByCreatedDesc (a r : PdfQaRow) (l : List PdfQaRow) :
    a ∈ insertByCreatedDesc r l ↔ a = r ∨ a ∈ l := by
  induction l with
  | nil => simp [insertByCreatedDesc]
  | cons q rest ih =>
    by_cases h : r.created_at ≤ q.created_at
    · simp only [insertByCreatedDesc, h, if_true, List.mem_cons, ih]
      tauto
    · simp only [insertByCreatedDesc, h, if_false, List.mem_cons]

/-- The descending sort keeps exactly the members of its input. -/
theorem mem_sortByCreatedDesc (a : PdfQaRow) (l : List PdfQaRow) :
    a ∈ sortByCreatedDesc l ↔ a ∈ l := by
  induction l with
  | nil => simp [sortByCreatedDesc]
  | cons q rest ih =>
    simp only [sortByCreatedDesc, List.foldr_cons] at *
    rw [mem_insertByCreatedDesc]
    simp [ih]

/-- C6: save_pdf_qa stores cost_estimate = (query_tokens * 0.01 +
response_tokens * 0.03) / 1000, computed at write time from the
caller-supplied token estimates (Python floats modelled as exact rationals);
with query_tokens = 5 and response_tokens = 3 the formula gives
0.00014 = 14/100000; and get_pdf_qa_history returns the stored fields
unchanged — the cost is never recomputed on read. -/
theorem save_pdf_qa_cost
    (db : DBState) (now pid : Nat) (q a : String) (qt rt : ℚ) :
    ((save_pdf_qa db now pid q a qt rt).1.pdf_qa.getLast?
      = some { id := nextQaId db.pdf_qa, pdf_history_id := pid, question := q,
               answer := a, query_tokens := qt, response_tokens := rt,
               cost_estimate := (qt * (1 / 100) + rt * (3 / 100)) / 1000,
               created_at := now })
    ∧ ((5 * (1 / 100 : ℚ) + 3 * (3 / 100)) / 1000 = 14 / 100000)
    ∧ (∀ e ∈ get_pdf_qa_history (save_pdf_qa db now pid q a qt rt).1 pid,
        ∃ r ∈ (save_pdf_qa db now pid q a qt rt).1.pdf_qa,
          e.question = r.question ∧ e.answer = r.answer
          ∧ e.created_at = r.created_at ∧ e.cost_estimate = r.cost_estimate) := by
  refine ⟨?_, by norm_num, ?_⟩
  · simp only [save_pdf_qa]
    rw [List.getLast?_concat]
  · intro e he
    simp only [get_pdf_qa_history, List.mem_map] at he
    obtain ⟨r, hr, rfl⟩ := he
    rw [mem_sortByCreatedDesc] at hr
    exact ⟨r, List.mem_of_mem_filter hr, rfl, rfl, rfl, rfl⟩

/-- C9 counterexample: with one usage_analytics row present, the tab5
bulk-delete Everything branch followed by get_database_stats reports
usage_analytics_count = 1, not the zero count the claim promises for all five
tables. -/
theorem bulk_delete_everything_counterexample :
    (get_database_stats (bulk_delete_everything dbWithUsage)).usage_analytics_count = 1
    ∧ (1 : Nat) ≠ 0 := ⟨rfl, by decide⟩

/-- latestProcessed is none exactly on the empty list, and a returned row is
a member of maximal processed_at. -/
theorem latestProcessed_spec (l : List PdfHistoryRow) :
    (latestProcessed l = none ↔ l = [])
    ∧ ∀ b, latestProcessed l = some b →
        b ∈ l ∧ ∀ x ∈ l, x.processed_at ≤ b.processed_at := by
  induction l with
  | nil => simp [latestProcessed]
  | cons r rest ih =>
    constructor
    · simp only [latestProcessed]
      cases hrest : latestProcessed rest with
      | none => simp
      | some c => by_cases h : r.processed_at < c.processed_at <;> simp [h]
    · intro b hb
      simp only [latestProcessed] at hb
      cases hrest : latestProcessed rest with
      | none =>
        rw [hrest] at hb
        have hb2 : some r = some b := hb
        simp only [Option.some.injEq] at hb2
        subst hb2
        have hempty : rest = [] := ih.1.mp hrest
        subst hempty
        simp
      | some c =>
        rw [hrest] at hb
        have hb2 : (if r.processed_at < c.processed_at then some c else some r)
            = some b := hb
        obtain ⟨hc, hmax⟩ := ih.2 c hrest
        by_cases h : r.processed_at < c.processed_at
        · rw [if_pos h] at hb2
          simp only [Option.some.injEq] at hb2
          subst hb2
          refine ⟨List.mem_cons_of_mem _ hc, ?_⟩
          intro x hx
          rcases List.mem_cons.mp hx with rfl | hx2
          · omega
          · exact hmax x hx2
        · rw [if_neg h] at hb2
          simp only [Option.some.injEq] at hb2
          subst hb2
          refine ⟨List.mem_cons_self _ _, ?_⟩
          intro x hx
          rcases List.mem_cons.mp hx with rfl | hx2
          · exact Nat.le_refl _
          · exact Nat.le_trans (hmax x hx2) (by omega)

/-- get_pdf_by_hash returns none exactly when no row matches. -/
theorem get_pdf_by_hash_none_iff (t : List PdfHistoryRow) (h : String) :
    get_pdf_by_hash t h = none
      ↔ ∀ r ∈ t, ¬(r.file_hash = h ∧ r.status = "processed") := by
  unfold get_pdf_by_hash
  rw [(latestProcessed_spec _).1, List.filter_eq_nil_iff]
  simp

/-- A row returned by get_pdf_by_hash matches and has maximal processed_at. -/
theorem get_pdf_by_hash_some (t : List PdfHistoryRow) (h : String) (r : PdfHistoryRow)
    (hr : get_pdf_by_hash t h = some r) :
    r ∈ t ∧ r.file_hash = h ∧ r.status = "processed"
    ∧ ∀ r2 ∈ t, r2.file_hash = h → r2.status = "processed" →
        r2.processed_at ≤ r.processed_at := by
  unfold get_pdf_by_hash at hr
  obtain ⟨hmem, hmax⟩ := (latestProcessed_spec _).2 r hr
  have hmemt := List.mem_of_mem_filter hmem
  have hpred := List.of_mem_filter hmem
  simp only [Bool.and_eq_true, beq_iff_eq] at hpred
  refine ⟨hmemt, hpred.1, hpred.2, ?_⟩
  intro r2 h2 hh hs
  exact hmax r2 (List.mem_filter.mpr ⟨h2, by simp [hh, hs]⟩)

/-- Appending a fresh matching row to a table with no matching row makes it
the row get_pdf_by_hash returns. -/
theorem get_pdf_by_hash_append_fresh (tbl : List PdfHistoryRow) (r1 : PdfHistoryRow)
    (h : String) (hmatch : r1.file_hash = h) (hstatus : r1.status = "processed")
    (hmiss : tbl.filter (fun r => r.file_hash == h && r.status == "processed") = []) :
    get_pdf_by_hash (tbl ++ [r1]) h = some r1 := by
  unfold get_pdf_by_hash
  rw [List.filter_append, hmiss]
  simp [latestProcessed, hmatch, hstatus]

/-- C7: get_pdf_by_hash returns the most recently processed record whose
file_hash matches and whose status is "processed", or none when there is no
such record; consequently, ingesting byte-identical document content a second
time resolves to the first ingestion's record id — with the first record's
chunk count and page count — instead of creating a new record. -/
theorem pdf_dedup_find_by_content
    (tbl : List PdfHistoryRow) (now1 now2 : Nat) (name1 name2 : String)
    (content : List Nat) (chunks1 chunks2 : List Chunk)
    (hmiss : get_pdf_by_hash tbl (md5_bytes content) = none) :
    GetPdfByHashSpec
    ∧ FindByContentSpec tbl now1 now2 name1 name2 content chunks1 chunks2 := by
  refine ⟨⟨get_pdf_by_hash_none_iff, get_pdf_by_hash_some⟩, ?_⟩
  have hfilter : tbl.filter
      (fun r => r.file_hash == md5_bytes content && r.status == "processed") = [] := by
    rw [List.filter_eq_nil_iff]
    intro a ha
    have hna := (get_pdf_by_hash_none_iff tbl (md5_bytes content)).mp hmiss a ha
    simp only [Bool.and_eq_true, beq_iff_eq]
    tauto
  have hout1 : process_pdf_with_deduplication tbl now1 name1 content chunks1
      = (tbl ++ [(⟨nextPdfId tbl, name1, md5_bytes content, content.length,
            (chunks1.map (fun c => c.end_page)).foldl max 0,
            (chunks1.map (fun c => c.file_id)).length,
            chunks1.map (fun c => c.file_id), now1, "processed"⟩ : PdfHistoryRow)],
          nextPdfId tbl, chunks1) := by
    simp only [process_pdf_with_deduplication, hmiss, save_pdf_processing]
  refine ⟨⟨nextPdfId tbl, name1, md5_bytes content, content.length,
      (chunks1.map (fun c => c.end_page)).foldl max 0,
      (chunks1.map (fun c => c.file_id)).length,
      chunks1.map (fun c => c.file_id), now1, "processed"⟩, ?_, ?_, rfl, rfl, ?_, rfl, ?_⟩
  · rw [hout1]
    simp
  · rw [hout1]
  · simp
  · rw [hout1]
    have hget := get_pdf_by_hash_append_fresh tbl
      (⟨nextPdfId tbl, name1, md5_bytes content, content.length,
        (chunks1.map (fun c => c.end_page)).foldl max 0,
        (chunks1.map (fun c => c.file_id)).length,
        chunks1.map (fun c => c.file_id), now1, "processed"⟩ : PdfHistoryRow)
      (md5_bytes content) rfl rfl hfilter
    simp only [process_pdf_with_deduplication, hget]

/-- C7 at a concrete input: two ingestions of the same two-byte content. -/
theorem pdf_dedup_find_by_content_witness :
    GetPdfByHashSpec
    ∧ FindByContentSpec [] 1 2 "report.pdf" "copy.pdf" [7, 7]
        [⟨"f1", 1, 2⟩, ⟨"f2", 3, 4⟩] [] :=
  pdf_dedup_find_by_content [] 1 2 "report.pdf" "copy.pdf" [7, 7]
    [⟨"f1", 1, 2⟩, ⟨"f2", 3, 4⟩] [] rfl

/-- The i-th reconstructed chunk, read off through the enumeration. -/
theorem reconstruct_getElem (ids : List String) (P N i : Nat) :
    (reconstruct_chunk_ranges ids P N)[i]?
      = (ids[i]?).map (fun fid =>
          ⟨fid, i * (P / N) + 1, min ((i + 1) * (P / N)) P⟩) := by
  simp only [reconstruct_chunk_ranges, List.getElem?_map, List.getElem?_enum]
  cases ids[i]? <;> rfl

/-- A present reconstructed chunk is within bounds and carries the loop's
start and end formulas. -/
theorem reconstruct_getElem_some (ids : List String) (P N i : Nat) (c : Chunk)
    (hc : (reconstruct_chunk_ranges ids P N)[i]? = some c) :
    i < ids.length ∧ c.start = i * (P / N) + 1
    ∧ c.end_page = min ((i + 1) * (P / N)) P := by
  rw [reconstruct_getElem] at hc
  cases hfi : ids[i]? with
  | none => rw [hfi] at hc; cases hc
  | some fid =>
    rw [hfi] at hc
    simp only [Option.map_some', Option.some.injEq] at hc
    subst hc
    refine ⟨?_, rfl, rfl⟩
    by_contra hni
    rw [List.getElem?_eq_none (Nat.le_of_not_lt hni)] at hfi
    cases hfi

/-- Every natural number lies below the rounded-up multiple of a positive b. -/
theorem div_mul_upper (a b : Nat) (hb : 0 < b) : a < (a / b + 1) * b := by
  calc a = b * (a / b) + a % b := (Nat.div_add_mod a b).symm
  _ < b * (a / b) + b := Nat.add_lt_add_left (Nat.mod_lt a hb) _
  _ = b * (a / b + 1) := by rw [Nat.mul_add, Nat.mul_one]
  _ = (a / b + 1) * b := Nat.mul_comm _ _

/-- C8: for a page count P evenly divisible by the chunk count N > 0, the
reconstruction assigns chunk i (0-indexed) the page range
[i * (P/N) + 1, min((i+1) * (P/N), P)], and the N ranges are contiguous,
non-overlapping, and together cover exactly pages 1..P. -/
theorem chunk_ranges_partition (ids : List String) (P : Nat)
    (_hN : 0 < ids.length) (hdvd : ids.length ∣ P) :
    ChunkRangesSpec ids P := by
  have hmul : P / ids.length * ids.length = P := Nat.div_mul_cancel hdvd
  have hNP : ids.length * (P / ids.length) = P := by
    rw [Nat.mul_comm]
    exact hmul
  refine ⟨?_, ?_, ?_, ?_, ?_⟩
  · simp [reconstruct_chunk_ranges]
  · intro i hi
    have hmin : min ((i + 1) * (P / ids.length)) P = (i + 1) * (P / ids.length) := by
      apply Nat.min_eq_left
      calc (i + 1) * (P / ids.length) ≤ ids.length * (P / ids.length) :=
        Nat.mul_le_mul_right _ (by omega)
      _ = P := hNP
    refine ⟨ids.get ⟨i, hi⟩, List.getElem?_eq_getElem hi, ?_, hmin⟩
    rw [reconstruct_getElem, List.getElem?_eq_getElem hi]
    simp [hmin]
  · intro i c c2 hc hc2
    obtain ⟨hi, hs, he⟩ := reconstruct_getElem_some ids P ids.length i c hc
    obtain ⟨hi2, hs2, he2⟩ := reconstruct_getElem_some ids P ids.length (i + 1) c2 hc2
    have hmin : min ((i + 1) * (P / ids.length)) P = (i + 1) * (P / ids.length) := by
      apply Nat.min_eq_left
      calc (i + 1) * (P / ids.length) ≤ ids.length * (P / ids.length) :=
        Nat.mul_le_mul_right _ (by omega)
      _ = P := hNP
    rw [he, hmin, hs2]
  · intro p
    constructor
    · rintro ⟨hp1, hpP⟩
      have hppc0 : 0 < P / ids.length := by
        rcases Nat.eq_zero_or_pos (P / ids.length) with h0 | h
        · rw [h0, Nat.zero_mul] at hmul
          omega
        · exact h
      have hiN : (p - 1) / (P / ids.length) < ids.length := by
        rw [Nat.div_lt_iff_lt_mul hppc0]
        omega
      refine ⟨(p - 1) / (P / ids.length),
        ⟨ids.get ⟨(p - 1) / (P / ids.length), hiN⟩,
         (p - 1) / (P / ids.length) * (P / ids.length) + 1,
         min (((p - 1) / (P / ids.length) + 1) * (P / ids.length)) P⟩, ?_, ?_, ?_⟩
      · rw [reconstruct_getElem, List.getElem?_eq_getElem hiN]
        rfl
      · have hle := Nat.div_mul_le_self (p - 1) (P / ids.length)
        simp only [inChunkPages]
        omega
      · have hup := div_mul_upper (p - 1) (P / ids.length) hppc0
        simp only [inChunkPages]
        omega
    · rintro ⟨i, c, hc, hs, he⟩
      obtain ⟨hi, hcs, hce⟩ := reconstruct_getElem_some ids P ids.length i c hc
      rw [hcs] at hs
      rw [hce] at he
      constructor
      · omega
      · calc p ≤ min ((i + 1) * (P / ids.length)) P := he
        _ ≤ P := Nat.min_le_right _ _
  · intro i j c c2 p hc hc2 hin hin2
    obtain ⟨hi, hcs, hce⟩ := reconstruct_getElem_some ids P ids.length i c hc
    obtain ⟨hj, hcs2, hce2⟩ := reconstruct_getElem_some ids P ids.length j c2 hc2
    obtain ⟨hs, he⟩ := hin
    obtain ⟨hs2, he2⟩ := hin2
    rw [hcs] at hs
    rw [hce] at he
    rw [hcs2] at hs2
    rw [hce2] at he2
    have hei : p ≤ (i + 1) * (P / ids.length) :=
      Nat.le_trans he (Nat.min_le_left _ _)
    have hej : p ≤ (j + 1) * (P / ids.length) :=
      Nat.le_trans he2 (Nat.min_le_left _ _)
    have hdi : (p - 1) / (P / ids.length) = i :=
      Nat.div_eq_of_lt_le (by omega) (by omega)
    have hdj : (p - 1) / (P / ids.length) = j :=
      Nat.div_eq_of_lt_le (by omega) (by omega)
    omega

/-- C8 at a concrete input: two chunks over four pages. -/
theorem chunk_ranges_partition_witness : ChunkRangesSpec ["f1", "f2"] 4 :=
  chunk_ranges_partition ["f1", "f2"] 4 (by decide) (by decide)

/-- C9 amended: the Everything branch empties market_cache, pdf_history,
pdf_qa and ma_searches, so get_database_stats reports zero for those four
tables, while usage_analytics is untouched and keeps its prior count. -/
theorem bulk_delete_everything_stats (db : DBState) :
    get_database_stats (bulk_delete_everything db)
      = { market_cache_count := 0, pdf_history_count := 0, pdf_qa_count := 0,
          ma_searches_count := 0,
          usage_analytics_count := (get_database_stats db).usage_analytics_count } := rfl

/-- C10: cache_result persists str(result_data): the stored result_data — and
hence the data a later get_cached_result returns — is the string rendering of
the payload, so the round trip returns the identical value exactly when the
payload is already a string, while a non-string payload comes back only as
its string coercion. -/
theorem cache_stores_str_coercion
    (tbl : List CacheRow) (now : Nat) (mn qt src : String) (kwargs : Params)
    (v : PyVal) (ttl : Nat) (httl : 0 < ttl) :
    ((cache_result tbl now mn qt v src ttl kwargs).filter
        (fun r => r.query_hash == generate_query_hash mn qt kwargs)).map
        (fun r => r.result_data)
      = [pyToString v]
    ∧ (get_cached_result (cache_result tbl now mn qt v src ttl kwargs) now mn qt
        kwargs).map (fun c => c.data) = some (pyToString v)
    ∧ (∀ s, v = PyVal.pystr s → pyToString v = s)
    ∧ ((∃ s, v = PyVal.pystr s) ∨ PyVal.pystr (pyToString v) ≠ v) := by
  refine ⟨?_, ?_, ?_, ?_⟩
  · have h1 : (cache_result tbl now mn qt v src ttl kwargs).filter
        (fun r => r.query_hash == generate_query_hash mn qt kwargs)
        = [⟨mn, qt, generate_query_hash mn qt kwargs, pyToString v, now,
            some (now + ttl), src⟩] := filter_insertOrReplace _ _ _ rfl
    rw [h1]
    rfl
  · rw [get_after_put, if_pos (by omega)]
    rfl
  · intro s hs
    rw [hs]
    rfl
  · cases v with
    | pystr s => exact Or.inl ⟨s, rfl⟩
    | pyint n => exact Or.inr (fun h => PyVal.noConfusion h)

/-- C10 at a concrete input: caching the integer payload 42 stores and
returns the string rendering of 42. -/
theorem cache_stores_str_coercion_witness :
    ((cache_result [] 0 "m" "global" (PyVal.pyint 42) "openai" 1 []).filter
        (fun r => r.query_hash == generate_query_hash "m" "global" [])).map
        (fun r => r.result_data)
      = [pyToString (PyVal.pyint 42)]
    ∧ (get_cached_result (cache_result [] 0 "m" "global" (PyVal.pyint 42) "openai" 1 [])
        0 "m" "global" []).map (fun c => c.data) = some (pyToString (PyVal.pyint 42))
    ∧ (∀ s, PyVal.pyint 42 = PyVal.pystr s → pyToString (PyVal.pyint 42) = s)
    ∧ ((∃ s, PyVal.pyint 42 = PyVal.pystr s)
        ∨ PyVal.pystr (pyToString (PyVal.pyint 42)) ≠ PyVal.pyint 42) :=
  cache_stores_str_coercion [] 0 "m" "global" "openai" [] (PyVal.pyint 42) 1 (by decide)

end MarketApp
